import Mathlib

/-!
Verification development for the NCC-Bandits partial-observation
state-indexing engine (`src/algorithms/utilities.py`) and the
fixed-observation oracle (`src/algorithms/oracle_simoos.py`).

Modelling conventions of the shallow embedding:
* numpy float entries carrying data values, probabilities and rewards are
  modelled by `ℚ`; integer counts and indices by `ℕ`;
* the `None` sentinel marking an unobserved feature of a partial vector is
  `Option.none`; observed values are `Option.some`;
* python exceptions are `Except` errors (`assert` failures, `ValueError`
  from `list.index`, `IndexError` from out-of-bounds array access, and the
  `ValueError` numpy raises when a sequence is assigned into a scalar cell);
* `np.unique` returns the distinct entries in ascending (for rows:
  lexicographic) order, modelled by insertion sort of the deduplicated list.
-/

namespace NCCBandits

/-- Lexicographic row comparison, the order in which `np.unique(..., axis=0)`
returns rows. -/
def lexLe {α : Type} [LinearOrder α] : List α → List α → Bool
  | [], _ => true
  | _ :: _, [] => false
  | a :: as, b :: bs => if a < b then true else if b < a then false else lexLe as bs

/-- Model of `np.unique(rows, axis=0)`: the distinct rows in ascending
lexicographic order. -/
def npUniqueRows {α : Type} [LinearOrder α] (l : List (List α)) : List (List α) :=
  List.insertionSort (fun a b => lexLe a b = true) l.dedup

/-- Model of `np.unique` on a one-dimensional array: the distinct values in
ascending order. -/
def npUniqueVals {α : Type} [LinearOrder α] (l : List α) : List α :=
  List.insertionSort (fun a b => a ≤ b) l.dedup

/-- Combined `np.argmax` / `np.max` scan: the first position attaining the
maximum, together with that maximum (`none` on an empty array, on which numpy
raises). -/
def argmaxPair : List ℚ → Option (ℕ × ℚ)
  | [] => none
  | x :: xs =>
    match argmaxPair xs with
    | none => some (0, x)
    | some (j, m) => if m > x then some (j + 1, m) else some (0, x)

/-- Model of `np.argmax`: first index of the maximum (`0` on empty input). -/
def npArgmax (l : List ℚ) : ℕ := ((argmaxPair l).map Prod.fst).getD 0

/-- Model of `np.max` (`0` stands in for numpy's error on empty input; every
use below is on a nonempty array). -/
def npMax (l : List ℚ) : ℚ := ((argmaxPair l).map Prod.snd).getD 0

/-- Binary digits of `n`, most significant first, padded to `width` digits:
model of `np.binary_repr(n, width)` for `n < 2 ^ width`. -/
def binDigits : ℕ → ℕ → List ℕ
  | 0, _ => []
  | w + 1, n => binDigits w (n / 2) ++ [n % 2]

/-- `full_perm_construct` (utilities.py): all `2 ^ size` observation actions
of length `size`, row `i` being the binary expansion of `i`. -/
def full_perm_construct (size : ℕ) : List (List ℕ) :=
  (List.range (2 ^ size)).map (fun i => binDigits size i)

/-- `perm_construct` (utilities.py): all observation actions over
`org_dim_context` features with at most `max_no_red_context` ones.  Each loop
iteration builds `np.unique(list(itertools.permutations([1]*i + [0]*(D-i))), axis=0)`,
modelled as the sorted deduplicated list of all permutations of `i` ones and
`D - i` zeros; the results are concatenated over `i = 0, …, max`. -/
def perm_construct (org_dim_context max_no_red_context : ℕ) : List (List ℕ) :=
  if org_dim_context = max_no_red_context then
    full_perm_construct org_dim_context
  else
    (List.range (max_no_red_context + 1)).flatMap (fun i =>
      npUniqueRows ((List.replicate i 1 ++ List.replicate (org_dim_context - i) 0).permutations))

/-- Column `i` of the context matrix. -/
def columnOf (all_contexts : List (List ℚ)) (i : ℕ) : List ℚ :=
  all_contexts.map (fun row => row.getD i 0)

/-- `save_feature_values` (utilities.py): per feature, the sorted distinct
values of its column, prefixed by the `None` sentinel. -/
def save_feature_values (all_contexts : List (List ℚ)) : List (List (Option ℚ)) :=
  (List.range (all_contexts.headD []).length).map (fun i =>
    none :: (npUniqueVals (columnOf all_contexts i)).map some)

/-- The companion `all_feature_counts` array of `save_feature_values`:
`feature_counts[i] = len(values[i])`, sentinel included. -/
def feature_counts (all_contexts : List (List ℚ)) : List ℕ :=
  (save_feature_values all_contexts).map List.length

/-- `state_construct` (utilities.py): for one observation action, the pair
`(psi, s_o)` — the number of reachable partial vectors and the size of the
state array — computed as `Π (count[i] - 1) ** perm[i]` and
`Π count[i] ** perm[i]`, guarded by `number_of_observation_action > 0`
(the guard is `np.dot(one_perm, ones)`, i.e. the sum of the action). -/
def state_construct (all_feature_counts : List ℕ) (one_perm : List ℕ) : ℕ × ℕ :=
  if 0 < one_perm.sum then
    ((List.zipWith (fun c p => (c - 1) ^ p) all_feature_counts one_perm).prod,
     (List.zipWith (fun c p => c ^ p) all_feature_counts one_perm).prod)
  else (1, 1)

/-- Error outcomes of `state_extract`: a failed `assert` (the
sentinel/observation-bit contract), a `list.index` miss (`ValueError`), or an
out-of-bounds `all_feature_counts[i]` access (`IndexError`). -/
inductive ExtractErr : Type
  | assertionError : ExtractErr
  | valueError : ExtractErr
  | indexError : ExtractErr
deriving DecidableEq

/-- The sanity-check loop of `state_extract`: over `zip(context, observation)`,
an observed position must hold a concrete value and an unobserved one the
sentinel. -/
def extractCheck (context_at_t : List (Option ℚ)) (observation_action_at_t : List ℕ) : Bool :=
  (context_at_t.zip observation_action_at_t).all (fun p =>
    if p.2 = 1 then p.1.isSome else p.1.isNone)

/-- The positional-numeral fold of `state_extract`:
`state_index = state_index * all_feature_counts[i] + feature_values[i].index(context[i])`
over the features in order.  A missing `all_feature_counts[i]` raises
`IndexError`; a value absent from the catalog list raises `ValueError`
(`feature_values` is a `defaultdict(list)`, so a missing feature has the
empty catalog, in which every lookup misses). -/
def extractLoop (all_feature_counts : List ℕ) (feature_values : List (List (Option ℚ)))
    (context_at_t : List (Option ℚ)) (state_index : ℕ) : Except ExtractErr ℕ :=
  match context_at_t with
  | [] => .ok state_index
  | x :: ctx =>
    match all_feature_counts with
    | [] => .error .indexError
    | c :: counts =>
      match (feature_values.headD []).findIdx? (fun v => v == x) with
      | none => .error .valueError
      | some r => extractLoop counts feature_values.tail ctx (state_index * c + r)

/-- `state_extract` (utilities.py): the mixed-radix index of a partial vector,
computed after the sentinel/observation sanity check. -/
def state_extract (feature_values : List (List (Option ℚ))) (all_feature_counts : List ℕ)
    (context_at_t : List (Option ℚ)) (observation_action_at_t : List ℕ) : Except ExtractErr ℕ :=
  if extractCheck context_at_t observation_action_at_t then
    extractLoop all_feature_counts feature_values context_at_t 0
  else .error .assertionError

/-- The reversed decoding loop of `state_create`, threading the remaining
index from the last feature back to the first:
`d = idx % count[i]; context[i] = values[i][d]; idx = (idx - d) / count[i]`. -/
def createFold (feature_values : List (List (Option ℚ))) (state_index : ℕ) :
    List (Option ℚ) × ℕ :=
  feature_values.foldr (fun vals acc =>
    let c := vals.length
    let d := acc.2 % c
    (vals.getD d none :: acc.1, (acc.2 - d) / c)) ([], state_index)

/-- `state_create` (utilities.py): the partial vector decoded from a state
index by repeated div/mod, last feature first (a sentinel value travels
through the float array as `nan` and is restored to `None`, which the
`Option` model renders as the identity). -/
def state_create (state_index : ℕ) (feature_values : List (List (Option ℚ))) :
    List (Option ℚ) :=
  (createFold feature_values state_index).1

/-- `is_round_over` (utilities.py):
`int(((N - N_old) >= np.maximum(N_old, 1)).any())`, with flag `1` rendered as
`true`. -/
def is_round_over (N_old N : List ℤ) : Bool :=
  (List.zipWith (fun n o => decide (n - o ≥ max o 1)) N N_old).any id

/-- Numeric value of a most-significant-first digit string in base 2 (used
only to reason about `binDigits`). -/
def bitsVal (l : List ℕ) : ℕ := l.foldl (fun a b => 2 * a + b) 0

/-!  Embedding of `oracle_simoos.py`. -/

/-- Elementwise masking `all_contexts * np.tile(one_perm, ...)` in `general`:
each context row multiplied by the 0/1 observation action, so unobserved
positions become `0`. -/
def maskedContexts (all_contexts : List (List ℚ)) (one_perm : List ℕ) : List (List ℚ) :=
  all_contexts.map (fun row => List.zipWith (fun x p => x * (p : ℚ)) row one_perm)

/-- `S_i = np.unique(all_contexts_temp, axis=0)` in `general`: the distinct
masked rows in lexicographic order. -/
def uniqueMasked (all_contexts : List (List ℚ)) (one_perm : List ℕ) : List (List ℚ) :=
  npUniqueRows (maskedContexts all_contexts one_perm)

/-- The trials selected by the boolean mask
`(all_contexts_temp == S_i[j, :]).all(1)` in `general`, as a list of trial
indices. -/
def groupTrials (all_contexts : List (List ℚ)) (one_perm : List ℕ) (j : ℕ) : List ℕ :=
  (List.range all_contexts.length).filter (fun t =>
    (maskedContexts all_contexts one_perm).getD t [] ==
      (uniqueMasked all_contexts one_perm).getD j [])

/-- `true_prob_so[i, j]` of `general`: the group size over `time_horizon`
(`time_horizon = all_rewards.shape[0]`). -/
def general_true_prob (all_contexts all_rewards : List (List ℚ)) (one_perm : List ℕ)
    (j : ℕ) : ℚ :=
  (groupTrials all_contexts one_perm j).length / all_rewards.length

/-- `sum_of_rewards[i, j, k]` of `general`: `np.sum(all_rewards_temp[:, k])`
over the group's rows, here restricted to fully-recorded (NaN-free) reward
matrices; the NaN-capable embedding is `general_sum_rewards_nan` below. -/
def general_sum_rewards (all_contexts all_rewards : List (List ℚ)) (one_perm : List ℕ)
    (j k : ℕ) : ℚ :=
  ((groupTrials all_contexts one_perm j).map (fun t => (all_rewards.getD t []).getD k 0)).sum

/-- `number_of_visits_for_average_reward[i, j, k]` of `general`:
`all_rewards_temp[:, k].shape[0]`, i.e. the number of trials in the group
(independent of `k`, and counting every trial, not only those with a
recorded reward). -/
def general_visits (all_contexts : List (List ℚ)) (one_perm : List ℕ) (j : ℕ) : ℕ :=
  (groupTrials all_contexts one_perm j).length

/-- `true_average_reward[i, j, k]` of `general`: summed group rewards over
the group size, restricted to fully-recorded (NaN-free) reward matrices;
used by the oracle-selection claims, whose datasets record every reward.
The NaN-capable embedding is `general_true_average_nan` below. -/
def general_true_average (all_contexts all_rewards : List (List ℚ)) (one_perm : List ℕ)
    (j k : ℕ) : ℚ :=
  general_sum_rewards all_contexts all_rewards one_perm j k /
    (general_visits all_contexts one_perm j : ℚ)

/-- Addition on NaN-capable floats (`none` is numpy's `nan`, standing for an
unrecorded reward entry; `some q` a finite value): any `nan` operand poisons
the result. -/
def nanAdd : Option ℚ → Option ℚ → Option ℚ
  | some x, some y => some (x + y)
  | _, _ => none

/-- `np.sum` over NaN-capable floats, accumulating from `0.0`. -/
def npSumNaN (l : List (Option ℚ)) : Option ℚ := l.foldl nanAdd (some 0)

/-- `true_prob_so[i, j]` of `general` over a NaN-capable reward matrix: the
rewards only contribute `time_horizon = all_rewards.shape[0]`. -/
def general_true_prob_nan (all_contexts : List (List ℚ))
    (all_rewards : List (List (Option ℚ))) (one_perm : List ℕ) (j : ℕ) : ℚ :=
  (groupTrials all_contexts one_perm j).length / all_rewards.length

/-- `sum_of_rewards[i, j, k]` of `general` over a NaN-capable reward matrix:
`np.sum(all_rewards_temp[:, k])` ranges over every trial of the group, so a
single unrecorded entry poisons the sum. -/
def general_sum_rewards_nan (all_contexts : List (List ℚ))
    (all_rewards : List (List (Option ℚ))) (one_perm : List ℕ) (j k : ℕ) : Option ℚ :=
  npSumNaN ((groupTrials all_contexts one_perm j).map
    (fun t => (all_rewards.getD t []).getD k (some 0)))

/-- `true_average_reward[i, j, k]` of `general` over a NaN-capable reward
matrix: the (possibly poisoned) sum divided by the full group size
`all_rewards_temp[:, k].shape[0]` — never by a recorded-entry count — with
`nan` propagating through the division. -/
def general_true_average_nan (all_contexts : List (List ℚ))
    (all_rewards : List (List (Option ℚ))) (one_perm : List ℕ) (j k : ℕ) : Option ℚ :=
  (general_sum_rewards_nan all_contexts all_rewards one_perm j k).map
    (fun s => s / (general_visits all_contexts one_perm j : ℚ))

/-- Stated from the spec's words, for comparison with
`general_true_average_nan` (spec §4.6: "per arm, mean reward over the subset
of trials in that group where that arm's reward was recorded"): the mean over
the group's recorded entries only. -/
def spec_recorded_mean (all_contexts : List (List ℚ))
    (all_rewards : List (List (Option ℚ))) (one_perm : List ℕ) (r : List ℚ) (k : ℕ) : ℚ :=
  let group := (List.range all_contexts.length).filter
    (fun t => (maskedContexts all_contexts one_perm).getD t [] == r)
  let recorded := (group.map (fun t => (all_rewards.getD t []).getD k none)).filterMap
    (fun x => x)
  recorded.sum / (recorded.length : ℚ)

/-- `number_of_actions = all_rewards.shape[1]` in `general`. -/
def numberOfActions (all_rewards : List (List ℚ)) : ℕ := (all_rewards.headD []).length

/-- `r_star[i, j]` of the oracle constructor:
`np.max(true_average_reward[i, j, :])` for the `S_Size[i]` filled rows, `0`
elsewhere (the array is allocated with `np.zeros`). -/
def r_star (all_contexts all_rewards : List (List ℚ)) (one_perm : List ℕ) (j : ℕ) : ℚ :=
  if j < (uniqueMasked all_contexts one_perm).length then
    npMax ((List.range (numberOfActions all_rewards)).map
      (fun k => general_true_average all_contexts all_rewards one_perm j k))
  else 0

/-- `action_star[i, j]` of the oracle constructor:
`np.argmax(true_average_reward[i, j, :])` (first arm attaining the maximum)
for the filled rows, `0` elsewhere. -/
def action_star (all_contexts all_rewards : List (List ℚ)) (one_perm : List ℕ) (j : ℕ) : ℕ :=
  if j < (uniqueMasked all_contexts one_perm).length then
    npArgmax ((List.range (numberOfActions all_rewards)).map
      (fun k => general_true_average all_contexts all_rewards one_perm j k))
  else 0

/-- `context_dimensionality = all_contexts.shape[1]`. -/
def contextDim (all_contexts : List (List ℚ)) : ℕ := (all_contexts.headD []).length

/-- `value_o[i]` of the oracle constructor:
`beta * np.dot(true_prob_so[i, :], r_star[i, :]) - np.dot(all_perms[i], cost_vector)`.
The dot product over the zero-padded state axis reduces to the `S_Size[i]`
filled rows, since both arrays are `0` beyond them. -/
def value_o (all_contexts all_rewards : List (List ℚ)) (cost_vector : List ℚ) (beta : ℚ)
    (one_perm : List ℕ) : ℚ :=
  beta * ((List.range (uniqueMasked all_contexts one_perm).length).map (fun j =>
      general_true_prob all_contexts all_rewards one_perm j *
        r_star all_contexts all_rewards one_perm j)).sum -
    (List.zipWith (fun p c => (p : ℚ) * c) one_perm cost_vector).sum

/-- `index_of_observation_action_star = np.argmax(self.value_o)`. -/
def indexOfObservationActionStar (all_contexts all_rewards : List (List ℚ))
    (cost_vector : List ℚ) (beta : ℚ) (max_num_observations : ℕ) : ℕ :=
  npArgmax ((perm_construct (contextDim all_contexts) max_num_observations).map
    (fun p => value_o all_contexts all_rewards cost_vector beta p))

/-- `selected_observation_action_at_t = all_perms[index_of_observation_action_star]`. -/
def selectedObservationAction (all_contexts all_rewards : List (List ℚ))
    (cost_vector : List ℚ) (beta : ℚ) (max_num_observations : ℕ) : List ℕ :=
  (perm_construct (contextDim all_contexts) max_num_observations).getD
    (indexOfObservationActionStar all_contexts all_rewards cost_vector beta
      max_num_observations) []

/-- `s_o_max = int(np.amax(s_o))` as the constructor documents it: the
largest state-array size over all observation actions (it sizes the state
axis of every per-state table). -/
def s_o_maxOf (all_contexts : List (List ℚ)) (max_num_observations : ℕ) : ℕ :=
  ((perm_construct (contextDim all_contexts) max_num_observations).map
    (fun p => (state_construct (feature_counts all_contexts) p).2)).foldl max 0

/-- `choose_features_to_observe` (oracle_simoos.py):
`[ind for ind, value in enumerate(self.observation_action_at_t) if value]`;
the offered `feature_indices` and `cost_vector` arguments are ignored. -/
def choose_features_to_observe (observation_action : List ℕ) (t : ℕ)
    (feature_indices : List ℕ) (cost_vector : List ℚ) : List ℕ :=
  ((observation_action.enum.filter (fun p => p.2 != 0)).map Prod.fst)

/-- Python errors surfaced by `choose_arm`: the `state_extract` errors, the
`IndexError` of reading the `s_o_max`-sized state axis out of bounds, and
the `ValueError` of `pool_indices.index` when the arm is absent. -/
inductive ChooseArmErr : Type
  | assertionError : ChooseArmErr
  | valueError : ChooseArmErr
  | indexError : ChooseArmErr
deriving DecidableEq

/-- `choose_arm` (oracle_simoos.py): computes the live trial's state index
with `state_extract` under the fixed selected action, then returns
`pool_indices.index(int(action_star[index_of_observation_action_star, s_t]))`. -/
def choose_arm (all_contexts all_rewards : List (List ℚ)) (cost_vector : List ℚ)
    (beta : ℚ) (max_num_observations : ℕ) (t : ℕ) (context_at_t : List (Option ℚ))
    (pool_indices : List ℕ) : Except ChooseArmErr ℕ :=
  let sel := selectedObservationAction all_contexts all_rewards cost_vector beta
    max_num_observations
  match state_extract (save_feature_values all_contexts) (feature_counts all_contexts)
      context_at_t sel with
  | .error .assertionError => .error .assertionError
  | .error .valueError => .error .valueError
  | .error .indexError => .error .indexError
  | .ok s_t =>
    if s_t < s_o_maxOf all_contexts max_num_observations then
      match pool_indices.findIdx?
          (fun a => a == action_star all_contexts all_rewards sel s_t) with
      | some pos => .ok pos
      | none => .error .valueError
    else .error .indexError

/-- A numpy value being assigned into a cell of a 1-d float array: either a
scalar, or the 2-tuple that `state_construct` returns. -/
inductive NpVal : Type
  | scalar : ℚ → NpVal
  | pair : ℕ → ℕ → NpVal

/-- The error the oracle constructor can raise. -/
inductive InitErr : Type
  | valueError : InitErr
deriving DecidableEq

/-- Assignment `arr[i] = v` into a 1-d float numpy array: a scalar is stored;
assigning a sequence raises
`ValueError: setting an array element with a sequence`. -/
def npSetScalar (arr : List ℚ) (i : ℕ) (v : NpVal) : Except InitErr (List ℚ) :=
  match v with
  | .scalar q => .ok (arr.set i q)
  | .pair _ _ => .error InitErr.valueError

/-- `SimOOS_Oracle.__init__`: after building the action enumeration and the
feature-value catalog, the constructor executes
`self.s_o[i] = utilities.state_construct(...)` for every action index `i` —
assigning the 2-tuple returned by `state_construct` into a scalar cell of
the float array `s_o` — and only afterwards would compute each observation
action's value and select the argmax action.  The unused
`number_of_actions` argument only sizes debug arrays in the source. -/
def simOOS_Oracle_init (all_contexts all_rewards : List (List ℚ)) (cost_vector : List ℚ)
    (number_of_actions max_num_observations : ℕ) (beta : ℚ) : Except InitErr (List ℕ) := do
  let all_perms := perm_construct (contextDim all_contexts) max_num_observations
  let counts := feature_counts all_contexts
  let _s_o ← (List.range all_perms.length).foldlM (fun arr i =>
      let pr := state_construct counts (all_perms.getD i [])
      npSetScalar arr i (NpVal.pair pr.1 pr.2))
    (List.replicate all_perms.length (0 : ℚ))
  pure (selectedObservationAction all_contexts all_rewards cost_vector beta
    max_num_observations)

/-!  Theorems for claim C9 (round-completion predicate). -/

/-- Claim C9: for same-shaped count arrays, `is_round_over` returns `true`
iff some element satisfies `currentCounts - priorCounts >= max(priorCounts, 1)`;
in particular `is_round_over [0] [1] = true`, `is_round_over [10] [15] = false`
and `is_round_over [10] [20] = true`. -/
theorem claim_C9 (N_old N : List ℤ) (hl : N_old.length = N.length) :
    (is_round_over N_old N = true ↔
      ∃ i, ∃ hi : i < N.length, ∃ ho : i < N_old.length,
        N.get ⟨i, hi⟩ - N_old.get ⟨i, ho⟩ ≥ max (N_old.get ⟨i, ho⟩) 1) ∧
    is_round_over [0] [1] = true ∧
    is_round_over [10] [15] = false ∧
    is_round_over [10] [20] = true := by
  refine ⟨?_, by decide, by decide, by decide⟩
  unfold is_round_over
  rw [List.any_eq_true]
  constructor
  · rintro ⟨b, hb, hbtrue⟩
    rw [List.mem_iff_getElem] at hb
    obtain ⟨i, hi, hget⟩ := hb
    have hlen : i < min N.length N_old.length := by
      simpa [List.length_zipWith] using hi
    refine ⟨i, lt_of_lt_of_le hlen (min_le_left _ _),
      lt_of_lt_of_le hlen (min_le_right _ _), ?_⟩
    rw [List.getElem_zipWith] at hget
    simp only [List.get_eq_getElem]
    have : id b = true := hbtrue
    rw [← hget] at this
    exact of_decide_eq_true this
  · rintro ⟨i, hi, ho, h⟩
    have hlen : i < (List.zipWith (fun n o => decide (n - o ≥ max o 1)) N N_old).length := by
      simp [List.length_zipWith]
      omega
    refine ⟨(List.zipWith (fun n o => decide (n - o ≥ max o 1)) N N_old)[i],
      List.getElem_mem hlen, ?_⟩
    rw [List.getElem_zipWith]
    simp only [List.get_eq_getElem] at h
    simpa using h

/-- Witness for C9 at the concrete arrays of the claim. -/
theorem claim_C9_witness :
    (is_round_over [0] [1] = true ↔
      ∃ i, ∃ hi : i < ([1] : List ℤ).length, ∃ ho : i < ([0] : List ℤ).length,
        ([1] : List ℤ).get ⟨i, hi⟩ - ([0] : List ℤ).get ⟨i, ho⟩ ≥
          max (([0] : List ℤ).get ⟨i, ho⟩) 1) ∧
    is_round_over [0] [1] = true ∧
    is_round_over [10] [15] = false ∧
    is_round_over [10] [20] = true :=
  claim_C9 [0] [1] rfl

/-!  Lemmas about the observation-action enumerator. -/

lemma binDigits_length (w n : ℕ) : (binDigits w n).length = w := by
  induction w generalizing n with
  | zero => rfl
  | succ w ih => simp [binDigits, ih]

lemma binDigits_le_one (w n : ℕ) : ∀ x ∈ binDigits w n, x ≤ 1 := by
  induction w generalizing n with
  | zero => simp [binDigits]
  | succ w ih =>
    intro x hx
    simp only [binDigits, List.mem_append, List.mem_singleton] at hx
    rcases hx with h | h
    · exact ih _ _ h
    · omega

lemma bitsVal_binDigits (w n : ℕ) : bitsVal (binDigits w n) = n % 2 ^ w := by
  induction w generalizing n with
  | zero => simp [binDigits, bitsVal, Nat.mod_one]
  | succ w ih =>
    have hstep : bitsVal (binDigits (w + 1) n) = 2 * bitsVal (binDigits w (n / 2)) + n % 2 := by
      simp [binDigits, bitsVal, List.foldl_append]
    rw [hstep, ih]
    have h2 : n % 2 ^ (w + 1) = n % (2 * 2 ^ w) := by rw [pow_succ']
    rw [h2, Nat.mod_mul]
    omega

lemma binDigits_injOn {w a b : ℕ} (ha : a < 2 ^ w) (hb : b < 2 ^ w)
    (h : binDigits w a = binDigits w b) : a = b := by
  have hv := congrArg bitsVal h
  rwa [bitsVal_binDigits, bitsVal_binDigits, Nat.mod_eq_of_lt ha, Nat.mod_eq_of_lt hb] at hv

lemma full_perm_construct_nodup (D : ℕ) : (full_perm_construct D).Nodup := by
  unfold full_perm_construct
  refine List.Nodup.map_on ?_ (List.nodup_range _)
  intro x hx y hy hxy
  exact binDigits_injOn (List.mem_range.mp hx) (List.mem_range.mp hy) hxy

lemma full_perm_construct_length (D : ℕ) : (full_perm_construct D).length = 2 ^ D := by
  simp [full_perm_construct]

lemma mem_full_perm_construct {D : ℕ} {v : List ℕ} (h : v ∈ full_perm_construct D) :
    v.length = D ∧ ∀ x ∈ v, x ≤ 1 := by
  unfold full_perm_construct at h
  obtain ⟨i, _, rfl⟩ := List.mem_map.mp h
  exact ⟨binDigits_length D i, binDigits_le_one D i⟩

lemma mem_npUniqueRows {α : Type} [LinearOrder α] {v : List α} {l : List (List α)} :
    v ∈ npUniqueRows l ↔ v ∈ l := by
  unfold npUniqueRows
  rw [(List.perm_insertionSort _ _).mem_iff, List.mem_dedup]

lemma npUniqueRows_nodup {α : Type} [LinearOrder α] (l : List (List α)) :
    (npUniqueRows l).Nodup :=
  (List.perm_insertionSort _ _).nodup_iff.mpr (List.nodup_dedup _)

lemma nodup_flatMap_of_disjoint {α β : Type} {l : List α} {f : α → List β}
    (hnd : ∀ a ∈ l, (f a).Nodup) (hl : l.Nodup)
    (hdis : ∀ a ∈ l, ∀ b ∈ l, a ≠ b → ∀ x ∈ f a, x ∉ f b) :
    (l.flatMap f).Nodup := by
  induction l with
  | nil => simp
  | cons a l ih =>
    rw [List.flatMap_cons]
    have hla : a ∉ l := (List.nodup_cons.mp hl).1
    refine List.Nodup.append (hnd a (by simp)) ?_ ?_
    · exact ih (fun b hb => hnd b (by simp [hb])) (List.nodup_cons.mp hl).2
        (fun b hb c hc hbc => hdis b (by simp [hb]) c (by simp [hc]) hbc)
    · intro x hx hmem
      obtain ⟨b, hb, hxb⟩ := List.mem_flatMap.mp hmem
      exact hdis a (by simp) b (by simp [hb]) (fun hab => hla (hab ▸ hb)) x hx hxb

lemma mem_perm_block {D i : ℕ} {v : List ℕ}
    (h : v ∈ npUniqueRows (List.replicate i 1 ++ List.replicate (D - i) 0).permutations) :
    v.Perm (List.replicate i 1 ++ List.replicate (D - i) 0) :=
  List.mem_permutations.mp (mem_npUniqueRows.mp h)

lemma perm_block_sum {D i : ℕ} {v : List ℕ}
    (h : v ∈ npUniqueRows (List.replicate i 1 ++ List.replicate (D - i) 0).permutations) :
    v.sum = i := by
  have := (mem_perm_block h).sum_eq
  simpa [List.sum_append, List.sum_replicate] using this

/-- Claim C6: for `M ≤ D` the enumerator returns pairwise-distinct binary
vectors of length `D`, each of Hamming weight at most `M`, and for `M = D`
it returns exactly `2 ^ D` vectors. -/
theorem claim_C6 (D M : ℕ) (hM : M ≤ D) :
    (perm_construct D M).Nodup ∧
    (∀ v ∈ perm_construct D M, v.length = D ∧ (∀ x ∈ v, x ≤ 1) ∧ v.sum ≤ M) ∧
    (M = D → (perm_construct D M).length = 2 ^ D) := by
  by_cases hDM : D = M
  · rw [perm_construct, if_pos hDM]
    refine ⟨full_perm_construct_nodup D, ?_, fun _ => full_perm_construct_length D⟩
    intro v hv
    obtain ⟨hlen, hone⟩ := mem_full_perm_construct hv
    refine ⟨hlen, hone, ?_⟩
    have h1 : v.sum ≤ v.length • 1 := List.sum_le_card_nsmul v 1 hone
    simp only [smul_eq_mul, mul_one] at h1
    omega
  · have hMD : M < D := lt_of_le_of_ne hM (fun h => hDM h.symm)
    rw [perm_construct, if_neg hDM]
    refine ⟨?_, ?_, fun h => absurd h.symm hDM⟩
    · refine nodup_flatMap_of_disjoint (fun a _ => npUniqueRows_nodup _) (List.nodup_range _) ?_
      intro a _ b _ hab x hxa hxb
      exact hab ((perm_block_sum hxa).symm.trans (perm_block_sum hxb))
    · intro v hv
      obtain ⟨i, hi, hvi⟩ := List.mem_flatMap.mp hv
      have hiM : i ≤ M := Nat.lt_succ_iff.mp (List.mem_range.mp hi)
      have hperm := mem_perm_block hvi
      refine ⟨?_, ?_, ?_⟩
      · rw [hperm.length_eq]
        simp only [List.length_append, List.length_replicate]
        omega
      · intro x hx
        have := hperm.mem_iff.mp hx
        rw [List.mem_append] at this
        rcases this with h | h
        · exact le_of_eq (List.eq_of_mem_replicate h)
        · simp [List.eq_of_mem_replicate h]
      · rw [perm_block_sum hvi]
        exact hiM

/-- Witness for C6 at `D = M = 2`. -/
theorem claim_C6_witness :
    2 ≤ 2 ∧
    ((perm_construct 2 2).Nodup ∧
      (∀ v ∈ perm_construct 2 2, v.length = 2 ∧ (∀ x ∈ v, x ≤ 1) ∧ v.sum ≤ 2) ∧
      (2 = 2 → (perm_construct 2 2).length = 2 ^ 2)) :=
  ⟨le_refl 2, claim_C6 2 2 (le_refl 2)⟩

/-!  Lemmas about `state_construct`. -/

lemma zip_pow_prod (f : ℕ → ℕ) :
    ∀ (counts perm : List ℕ), (∀ p ∈ perm, p ≤ 1) →
      (List.zipWith (fun c p => f c ^ p) counts perm).prod =
        (((counts.zip perm).filter (fun q => q.2 == 1)).map (fun q => f q.1)).prod := by
  intro counts
  induction counts with
  | nil => intro perm _; simp
  | cons c cs ih =>
    intro perm hbin
    cases perm with
    | nil => simp
    | cons p ps =>
      have hp : p ≤ 1 := hbin p (by simp)
      have hps : ∀ q ∈ ps, q ≤ 1 := fun q hq => hbin q (by simp [hq])
      interval_cases p
      · simpa using ih ps hps
      · simpa using congrArg (fun x => f c * x) (ih ps hps)

lemma state_construct_eq_filter (counts perm : List ℕ) (hbin : ∀ p ∈ perm, p ≤ 1) :
    state_construct counts perm =
      ((((counts.zip perm).filter (fun q => q.2 == 1)).map (fun q => q.1 - 1)).prod,
       (((counts.zip perm).filter (fun q => q.2 == 1)).map (fun q => q.1)).prod) := by
  unfold state_construct
  by_cases hsum : 0 < perm.sum
  · rw [if_pos hsum]
    rw [zip_pow_prod (fun c => c - 1) counts perm hbin, zip_pow_prod (fun c => c) counts perm hbin]
  · rw [if_neg hsum]
    have hz : ∀ p ∈ perm, p = 0 := List.sum_eq_zero_iff.mp (by omega)
    have hfil : (counts.zip perm).filter (fun q => q.2 == 1) = [] := by
      rw [List.filter_eq_nil_iff]
      intro q hq
      have := hz q.2 (List.of_mem_zip hq).2
      simp [this]
    simp [hfil]

lemma filter_prod_set (f : ℕ → ℕ) :
    ∀ (i : ℕ) (counts perm : List ℕ) (hi : i < perm.length) (hic : i < counts.length),
      perm.get ⟨i, hi⟩ = 0 →
      (((counts.zip (perm.set i 1)).filter (fun q => q.2 == 1)).map (fun q => f q.1)).prod =
        f (counts.get ⟨i, hic⟩) *
          (((counts.zip perm).filter (fun q => q.2 == 1)).map (fun q => f q.1)).prod := by
  intro i
  induction i with
  | zero =>
    intro counts perm hi hic hz
    cases perm with
    | nil => simp at hi
    | cons p ps =>
      cases counts with
      | nil => simp at hic
      | cons c cs =>
        have hp0 : p = 0 := hz
        subst hp0
        simp [List.filter]
  | succ i ih =>
    intro counts perm hi hic hz
    cases perm with
    | nil => simp at hi
    | cons p ps =>
      cases counts with
      | nil => simp at hic
      | cons c cs =>
        have hi' : i < ps.length := by simpa using hi
        have hic' : i < cs.length := by simpa using hic
        have hz' : ps.get ⟨i, hi'⟩ = 0 := hz
        have hrec := ih cs ps hi' hic' hz'
        simp only [List.set_cons_succ, List.zip_cons_cons, List.get_cons_succ]
        by_cases hp : (p == 1) = true
        · simp only [List.filter_cons, hp, if_true, List.map_cons, List.prod_cons, hrec]
          ring
        · simp [List.filter_cons, hp, hrec]

/-- Claim C7: for a binary observation action over a positive-count catalog,
`state_construct` returns the pair of products over the observed positions
(`count - 1` for the reachable count, `count` for the array size); flipping a
`0` bit of the action at position `i` multiplies the reachable count by
`count[i] - 1` and the array size by `count[i]`; and the all-zero action
yields `(1, 1)`. -/
theorem claim_C7 (all_feature_counts one_perm : List ℕ)
    (_hpos : ∀ c ∈ all_feature_counts, 1 ≤ c)
    (hbin : ∀ p ∈ one_perm, p ≤ 1)
    (i : ℕ) (hi : i < one_perm.length) (hic : i < all_feature_counts.length)
    (hzero : one_perm.get ⟨i, hi⟩ = 0) :
    state_construct all_feature_counts one_perm =
      ((((all_feature_counts.zip one_perm).filter (fun q => q.2 == 1)).map
          (fun q => q.1 - 1)).prod,
       (((all_feature_counts.zip one_perm).filter (fun q => q.2 == 1)).map
          (fun q => q.1)).prod) ∧
    state_construct all_feature_counts (one_perm.set i 1) =
      ((all_feature_counts.get ⟨i, hic⟩ - 1) * (state_construct all_feature_counts one_perm).1,
       all_feature_counts.get ⟨i, hic⟩ * (state_construct all_feature_counts one_perm).2) ∧
    state_construct all_feature_counts (List.replicate all_feature_counts.length 0) = (1, 1) := by
  have hbin' : ∀ p ∈ one_perm.set i 1, p ≤ 1 := by
    intro p hp
    rcases List.mem_or_eq_of_mem_set hp with h | h
    · exact hbin p h
    · omega
  refine ⟨state_construct_eq_filter _ _ hbin, ?_, ?_⟩
  · rw [state_construct_eq_filter _ _ hbin, state_construct_eq_filter _ _ hbin']
    rw [filter_prod_set (fun c => c - 1) i _ _ hi hic hzero,
      filter_prod_set (fun c => c) i _ _ hi hic hzero]
  · simp [state_construct]

/-- Witness for C7 at counts `[2, 3]`, action `[1, 0]`, flipped position `1`. -/
theorem claim_C7_witness :
    (∀ c ∈ ([2, 3] : List ℕ), 1 ≤ c) ∧
    (state_construct [2, 3] [1, 0] =
        ((((([2, 3] : List ℕ).zip [1, 0]).filter (fun q => q.2 == 1)).map
            (fun q => q.1 - 1)).prod,
         (((([2, 3] : List ℕ).zip [1, 0]).filter (fun q => q.2 == 1)).map
            (fun q => q.1)).prod) ∧
      state_construct [2, 3] (([1, 0] : List ℕ).set 1 1) =
        ((([2, 3] : List ℕ).get ⟨1, by decide⟩ - 1) * (state_construct [2, 3] [1, 0]).1,
         ([2, 3] : List ℕ).get ⟨1, by decide⟩ * (state_construct [2, 3] [1, 0]).2) ∧
      state_construct [2, 3] (List.replicate ([2, 3] : List ℕ).length 0) = (1, 1)) :=
  ⟨by decide, claim_C7 [2, 3] [1, 0] (by decide) (by decide) 1 (by decide) (by decide) (by decide)⟩

/-!  Lemmas about `state_extract` and `state_create`. -/

lemma findIdx?_beq_of_mem {α : Type} [BEq α] [LawfulBEq α] {x : α} :
    ∀ (l : List α) (s : ℕ), x ∈ l →
      ∃ r, l.findIdx? (fun v => v == x) s = some (s + r) ∧ r < l.length := by
  intro l
  induction l with
  | nil => intro s h; simp at h
  | cons a l ih =>
    intro s h
    rw [List.findIdx?_cons]
    by_cases ha : (a == x) = true
    · exact ⟨0, by rw [if_pos ha, Nat.add_zero], by simp⟩
    · have hx : x ∈ l := by
        rcases List.mem_cons.mp h with h | h
        · exact absurd (by simp [h]) ha
        · exact h
      obtain ⟨r, hr, hrlen⟩ := ih (s + 1) hx
      refine ⟨r + 1, ?_, by simp; omega⟩
      rw [if_neg ha, hr]
      congr 1
      omega

lemma findIdx?_beq_of_nodup {α : Type} [BEq α] [LawfulBEq α] :
    ∀ (l : List α) (s k : ℕ) (hk : k < l.length), l.Nodup →
      l.findIdx? (fun v => v == l.get ⟨k, hk⟩) s = some (s + k) := by
  intro l
  induction l with
  | nil => intro s k hk; simp at hk
  | cons a l ih =>
    intro s k hk hnd
    rw [List.findIdx?_cons]
    cases k with
    | zero =>
      have hself : (a == (a :: l).get ⟨0, hk⟩) = true := by simp
      rw [if_pos hself]
      simp
    | succ k =>
      have hk' : k < l.length := by simpa using hk
      have hget : (a :: l).get ⟨k + 1, hk⟩ = l.get ⟨k, hk'⟩ := rfl
      have hne : (a == (a :: l).get ⟨k + 1, hk⟩) = false := by
        rw [hget]
        refine beq_eq_false_iff_ne.mpr ?_
        intro hcontra
        apply (List.nodup_cons.mp hnd).1
        rw [hcontra]
        exact List.getElem_mem hk'
      rw [if_neg (by rw [hne]; exact Bool.false_ne_true), hget]
      rw [ih (s + 1) k hk' (List.nodup_cons.mp hnd).2]
      congr 1
      omega

lemma extractLoop_ne_assert (counts : List ℕ) (fv : List (List (Option ℚ)))
    (ctx : List (Option ℚ)) (acc : ℕ) :
    extractLoop counts fv ctx acc ≠ .error .assertionError := by
  induction ctx generalizing counts fv acc with
  | nil => simp [extractLoop]
  | cons x ctx' ih =>
    cases counts with
    | nil => simp [extractLoop]
    | cons c cs =>
      simp only [extractLoop]
      split
      · simp
      · exact ih _ _ _

lemma extractLoop_ok :
    ∀ (fv : List (List (Option ℚ))) (ctx : List (Option ℚ)) (acc : ℕ),
      ctx.length = fv.length →
      (∀ i (hi : i < ctx.length), ctx.get ⟨i, hi⟩ ∈ fv.getD i []) →
      ∃ n, extractLoop (fv.map List.length) fv ctx acc = .ok n ∧
        n < (acc + 1) * (fv.map List.length).prod := by
  intro fv
  induction fv with
  | nil =>
    intro ctx acc hlen _
    have hctx : ctx = [] := List.length_eq_zero.mp hlen
    subst hctx
    exact ⟨acc, rfl, by simp⟩
  | cons vals fv' ih =>
    intro ctx acc hlen hmem
    cases ctx with
    | nil => simp at hlen
    | cons x ctx' =>
      have hx : x ∈ vals := by simpa using hmem 0 (by simp)
      obtain ⟨r, hr, hrlen⟩ := findIdx?_beq_of_mem vals 0 hx
      have hr' : vals.findIdx? (fun v => v == x) = some r := by simpa using hr
      have hstep : extractLoop ((vals :: fv').map List.length) (vals :: fv') (x :: ctx') acc =
          extractLoop (fv'.map List.length) fv' ctx' (acc * vals.length + r) := by
        simp only [List.map_cons, extractLoop, List.headD_cons, List.tail_cons, hr']
      obtain ⟨n, hn, hbound⟩ := ih ctx' (acc * vals.length + r) (by simpa using hlen)
        (fun i hi => by simpa using hmem (i + 1) (by simpa using Nat.succ_lt_succ hi))
      refine ⟨n, by rw [hstep]; exact hn, ?_⟩
      calc n < (acc * vals.length + r + 1) * (fv'.map List.length).prod := hbound
        _ ≤ ((acc + 1) * vals.length) * (fv'.map List.length).prod := by
            apply mul_le_mul_right'
            rw [Nat.add_assoc]
            calc acc * vals.length + (r + 1) ≤ acc * vals.length + vals.length :=
              Nat.add_le_add_left hrlen _
            _ = (acc + 1) * vals.length := by ring
        _ = (acc + 1) * (((vals :: fv').map List.length).prod) := by
            rw [List.map_cons, List.prod_cons]; ring

lemma sub_mod_div (m c : ℕ) : (m - m % c) / c = m / c := by
  rcases Nat.eq_zero_or_pos c with hc | hc
  · subst hc; simp
  · have h := Nat.div_add_mod m c
    have h2 : m - m % c = c * (m / c) := Nat.sub_eq_of_eq_add h.symm
    rw [h2, Nat.mul_div_cancel_left _ hc]

lemma createFold_snd :
    ∀ (fv : List (List (Option ℚ))) (idx : ℕ),
      (createFold fv idx).2 = idx / (fv.map List.length).prod := by
  intro fv
  induction fv with
  | nil => intro idx; simp [createFold]
  | cons vals fv' ih =>
    intro idx
    show ((createFold fv' idx).2 - (createFold fv' idx).2 % vals.length) / vals.length = _
    rw [sub_mod_div, ih, Nat.div_div_eq_div_mul, List.map_cons, List.prod_cons, Nat.mul_comm]

lemma state_create_cons (idx : ℕ) (vals : List (Option ℚ)) (fv' : List (List (Option ℚ))) :
    state_create idx (vals :: fv') =
      vals.getD ((createFold fv' idx).2 % vals.length) none :: state_create idx fv' := rfl

lemma extractLoop_state_create :
    ∀ (fv : List (List (Option ℚ))) (idx acc : ℕ),
      (∀ vals ∈ fv, vals ≠ [] ∧ vals.Nodup) →
      extractLoop (fv.map List.length) fv (state_create idx fv) acc =
        .ok (acc * (fv.map List.length).prod + idx % (fv.map List.length).prod) := by
  intro fv
  induction fv with
  | nil =>
    intro idx acc _
    simp [state_create, createFold, extractLoop, Nat.mod_one]
  | cons vals fv' ih =>
    intro idx acc hgood
    have hne : vals ≠ [] := (hgood vals (by simp)).1
    have hnd : vals.Nodup := (hgood vals (by simp)).2
    have hc : 0 < vals.length := List.length_pos.mpr hne
    have hmc : (createFold fv' idx).2 % vals.length < vals.length := Nat.mod_lt _ hc
    rw [state_create_cons]
    have hv0 : vals.getD ((createFold fv' idx).2 % vals.length) none =
        vals.get ⟨(createFold fv' idx).2 % vals.length, hmc⟩ := by
      rw [List.getD_eq_getElem _ _ hmc]
      rfl
    have hfind : vals.findIdx?
        (fun v => v == vals.getD ((createFold fv' idx).2 % vals.length) none) =
        some ((createFold fv' idx).2 % vals.length) := by
      rw [hv0]
      simpa using findIdx?_beq_of_nodup vals 0 ((createFold fv' idx).2 % vals.length) hmc hnd
    have hstep : extractLoop ((vals :: fv').map List.length) (vals :: fv')
        (vals.getD ((createFold fv' idx).2 % vals.length) none :: state_create idx fv') acc =
        extractLoop (fv'.map List.length) fv' (state_create idx fv')
          (acc * vals.length + (createFold fv' idx).2 % vals.length) := by
      simp only [List.map_cons, extractLoop, List.headD_cons, List.tail_cons, hfind]
    rw [hstep, ih idx _ (fun v hv => hgood v (by simp [hv]))]
    congr 1
    rw [createFold_snd, List.map_cons, List.prod_cons, Nat.mul_comm vals.length, Nat.mod_mul]
    ring

lemma zipWith_pow_one_replicate :
    ∀ counts : List ℕ,
      List.zipWith (fun c p => c ^ p) counts (List.replicate counts.length 1) = counts := by
  intro counts
  induction counts with
  | nil => rfl
  | cons c cs ih => simp [List.replicate, ih]

lemma state_construct_ones (counts : List ℕ) :
    (state_construct counts (List.replicate counts.length 1)).2 = counts.prod := by
  cases counts with
  | nil => simp [state_construct]
  | cons c cs =>
    have hsum : 0 < (List.replicate (c :: cs).length 1).sum := by
      simp [List.sum_replicate]
    unfold state_construct
    rw [if_pos hsum, zipWith_pow_one_replicate]

/-!  Theorems for claim C2 (range of the state index). -/

/-- Counterexample for C2 as stated: under catalog counts `[3, 3]` and
observation action `[1, 0]`, the partial vector `[7, None]` satisfies the
sentinel-iff-unobserved invariant, yet `state_extract` returns `6`, which is
not below the per-observed-positions array size `3` that `state_construct`
returns for that action. -/
theorem claim_C2_counterexample :
    state_extract [[none, some 5, some 7], [none, some 5, some 7]] [3, 3]
      [some 7, none] [1, 0] = .ok 6 ∧
    (state_construct [3, 3] [1, 0]).2 = 3 ∧ ¬(6 < 3) :=
  ⟨rfl, rfl, by decide⟩

/-- Claim C2, amended: for a partial vector over the catalog that satisfies
the sentinel-iff-unobserved invariant, `state_extract` succeeds and its index
is below the product of ALL sentinel-inclusive feature cardinalities (the
array size `state_construct` reports for the all-ones observation action),
not below the product over observed positions only. -/
theorem claim_C2 (fv : List (List (Option ℚ))) (counts : List ℕ)
    (ctx : List (Option ℚ)) (obs : List ℕ)
    (hcounts : counts = fv.map List.length)
    (hlenf : ctx.length = fv.length)
    (hcheck : extractCheck ctx obs = true)
    (hmem : ∀ i (hi : i < ctx.length), ctx.get ⟨i, hi⟩ ∈ fv.getD i []) :
    ∃ n, state_extract fv counts ctx obs = .ok n ∧
      n < (state_construct counts (List.replicate counts.length 1)).2 := by
  subst hcounts
  obtain ⟨n, hok, hbound⟩ := extractLoop_ok fv ctx 0 hlenf hmem
  refine ⟨n, ?_, ?_⟩
  · unfold state_extract
    rw [if_pos hcheck]
    exact hok
  · rw [state_construct_ones]
    simpa using hbound

/-- Witness for C2 at catalog `[[None, 5]]`, vector `[5]`, action `[1]`. -/
theorem claim_C2_witness :
    extractCheck [some (5 : ℚ)] [1] = true ∧
    ∃ n, state_extract [[none, some (5 : ℚ)]] (([[none, some (5 : ℚ)]] :
        List (List (Option ℚ))).map List.length) [some (5 : ℚ)] [1] = .ok n ∧
      n < (state_construct (([[none, some (5 : ℚ)]] :
        List (List (Option ℚ))).map List.length)
        (List.replicate (([[none, some (5 : ℚ)]] :
          List (List (Option ℚ))).map List.length).length 1)).2 :=
  ⟨by decide, claim_C2 [[none, some 5]] _ [some 5] [1] rfl (by decide) (by decide)
    (by decide)⟩

/-!  Theorems for claim C8 (the assertion contract of `state_extract`). -/

lemma extractCheck_eq_true_iff (ctx : List (Option ℚ)) (obs : List ℕ) :
    extractCheck ctx obs = true ↔
      ∀ i (hc : i < ctx.length) (ho : i < obs.length),
        (obs.get ⟨i, ho⟩ = 1 → ctx.get ⟨i, hc⟩ ≠ none) ∧
        (obs.get ⟨i, ho⟩ ≠ 1 → ctx.get ⟨i, hc⟩ = none) := by
  simp only [List.get_eq_getElem]
  unfold extractCheck
  rw [List.all_eq_true]
  constructor
  · intro h i hc ho
    have hzl : i < (ctx.zip obs).length := by
      rw [List.length_zip]
      omega
    have hm : (ctx[i], obs[i]) ∈ ctx.zip obs := by
      rw [List.mem_iff_getElem]
      exact ⟨i, hzl, by rw [List.getElem_zip]⟩
    have hcp : (if obs[i] = 1 then (ctx[i]).isSome else (ctx[i]).isNone) = true := h _ hm
    by_cases h1 : obs[i] = 1
    · rw [if_pos h1] at hcp
      refine ⟨fun _ hxn => ?_, fun hne => absurd h1 hne⟩
      rw [hxn] at hcp
      simp at hcp
    · rw [if_neg h1] at hcp
      exact ⟨fun hb => absurd hb h1, fun _ => Option.isNone_iff_eq_none.mp hcp⟩
  · intro h p hp
    rw [List.mem_iff_getElem] at hp
    obtain ⟨i, hi, hpe⟩ := hp
    have hc : i < ctx.length := by
      rw [List.length_zip] at hi
      omega
    have ho : i < obs.length := by
      rw [List.length_zip] at hi
      omega
    have hpe' : p = (ctx[i], obs[i]) := by
      rw [← hpe, List.getElem_zip]
    subst hpe'
    obtain ⟨h1, h2⟩ := h i hc ho
    show (if obs[i] = 1 then (ctx[i]).isSome else (ctx[i]).isNone) = true
    by_cases hb : obs[i] = 1
    · rw [if_pos hb]
      cases hx : ctx[i] with
      | none => exact absurd hx (h1 hb)
      | some v => rfl
    · rw [if_neg hb, h2 hb]
      rfl

/-- Claim C8: `state_extract` fails with the sentinel/observation assertion
error exactly when some position has a sentinel under observation bit `1` or
a concrete value under observation bit `0`; and on valid inputs (invariant
satisfied, vector drawn from the catalog) it returns a state index. -/
theorem claim_C8 (fv : List (List (Option ℚ))) (counts : List ℕ)
    (ctx : List (Option ℚ)) (obs : List ℕ)
    (hlen : ctx.length = obs.length) (hbin : ∀ b ∈ obs, b ≤ 1) :
    (state_extract fv counts ctx obs = .error .assertionError ↔
      ∃ i, ∃ hc : i < ctx.length, ∃ ho : i < obs.length,
        (obs.get ⟨i, ho⟩ = 1 ∧ ctx.get ⟨i, hc⟩ = none) ∨
        (obs.get ⟨i, ho⟩ = 0 ∧ ctx.get ⟨i, hc⟩ ≠ none)) ∧
    (counts = fv.map List.length → ctx.length = fv.length →
      (∀ i (hi : i < ctx.length), ctx.get ⟨i, hi⟩ ∈ fv.getD i []) →
      extractCheck ctx obs = true →
      ∃ n, state_extract fv counts ctx obs = .ok n) := by
  constructor
  · unfold state_extract
    by_cases hch : extractCheck ctx obs = true
    · rw [if_pos hch]
      constructor
      · intro h
        exact absurd h (extractLoop_ne_assert _ _ _ _)
      · rintro ⟨i, hc, ho, hviol⟩
        exfalso
        obtain ⟨h1, h2⟩ := (extractCheck_eq_true_iff ctx obs).mp hch i hc ho
        rcases hviol with ⟨hb, hx⟩ | ⟨hb, hx⟩
        · exact h1 hb hx
        · exact hx (h2 (by omega))
    · rw [if_neg hch]
      refine ⟨fun _ => ?_, fun _ => rfl⟩
      simp only [List.get_eq_getElem]
      have hfe : ∃ p ∈ ctx.zip obs, ¬(if p.2 = 1 then p.1.isSome else p.1.isNone) = true := by
        have hfalse : extractCheck ctx obs = false := eq_false_of_ne_true hch
        unfold extractCheck at hfalse
        exact List.all_eq_false.mp hfalse
      obtain ⟨p, hp, hpf⟩ := hfe
      rw [List.mem_iff_getElem] at hp
      obtain ⟨i, hi, hpe⟩ := hp
      have hc : i < ctx.length := by
        rw [List.length_zip] at hi
        omega
      have ho : i < obs.length := by
        rw [List.length_zip] at hi
        omega
      have hpe' : p = (ctx[i], obs[i]) := by
        rw [← hpe, List.getElem_zip]
      subst hpe'
      have hpf' : ¬(if obs[i] = 1 then (ctx[i]).isSome else (ctx[i]).isNone) = true := hpf
      refine ⟨i, hc, ho, ?_⟩
      have hble : obs[i] ≤ 1 := hbin _ (List.getElem_mem ho)
      by_cases hb : obs[i] = 1
      · rw [if_pos hb] at hpf'
        left
        exact ⟨hb, Option.not_isSome_iff_eq_none.mp hpf'⟩
      · rw [if_neg hb] at hpf'
        right
        refine ⟨by omega, ?_⟩
        intro hx
        rw [hx] at hpf'
        exact hpf' rfl
  · intro hcounts hlenf hmem hcheck
    subst hcounts
    obtain ⟨n, hok, _⟩ := extractLoop_ok fv ctx 0 hlenf hmem
    refine ⟨n, ?_⟩
    unfold state_extract
    rw [if_pos hcheck]
    exact hok

/-- Witness for C8 at catalog `[[None, 5]]`, vector `[5]`, action `[1]`. -/
theorem claim_C8_witness :
    ([some (5 : ℚ)] : List (Option ℚ)).length = ([1] : List ℕ).length ∧
    ((state_extract [[none, some (5 : ℚ)]] [2] [some (5 : ℚ)] [1] =
        .error .assertionError ↔
      ∃ i, ∃ hc : i < ([some (5 : ℚ)] : List (Option ℚ)).length,
        ∃ ho : i < ([1] : List ℕ).length,
        (([1] : List ℕ).get ⟨i, ho⟩ = 1 ∧
          ([some (5 : ℚ)] : List (Option ℚ)).get ⟨i, hc⟩ = none) ∨
        (([1] : List ℕ).get ⟨i, ho⟩ = 0 ∧
          ([some (5 : ℚ)] : List (Option ℚ)).get ⟨i, hc⟩ ≠ none)) ∧
      (([2] : List ℕ) = ([[none, some (5 : ℚ)]] :
          List (List (Option ℚ))).map List.length →
        ([some (5 : ℚ)] : List (Option ℚ)).length =
          ([[none, some (5 : ℚ)]] : List (List (Option ℚ))).length →
        (∀ i (hi : i < ([some (5 : ℚ)] : List (Option ℚ)).length),
          ([some (5 : ℚ)] : List (Option ℚ)).get ⟨i, hi⟩ ∈
            ([[none, some (5 : ℚ)]] : List (List (Option ℚ))).getD i []) →
        extractCheck [some (5 : ℚ)] [1] = true →
        ∃ n, state_extract [[none, some (5 : ℚ)]] [2] [some (5 : ℚ)] [1] = .ok n)) :=
  ⟨rfl, claim_C8 [[none, some 5]] [2] [some 5] [1] rfl (by decide)⟩

/-!  Theorems for claim C5 (decode/encode round trip). -/

/-- Counterexample for C5 as stated: under the catalog with counts `[3, 3]`
and observation action `[0, 1]`, index `4` decodes to `[5, 5]`, which has no
sentinel at the observed position (so it is "reachable" in the claim's
sense), yet re-encoding fails the sentinel assertion — the unobserved
position carries a concrete value — instead of returning `4`. -/
theorem claim_C5_counterexample :
    state_create 4 [[none, some 5, some 7], [none, some 5, some 7]] = [some 5, some 5] ∧
    (∀ p ∈ (state_create 4 [[none, some 5, some 7], [none, some 5, some 7]]).zip
        ([0, 1] : List ℕ), p.2 = 1 → p.1.isSome = true) ∧
    state_extract [[none, some 5, some 7], [none, some 5, some 7]] [3, 3]
      (state_create 4 [[none, some 5, some 7], [none, some 5, some 7]]) [0, 1] =
      .error .assertionError :=
  ⟨by decide, by decide, rfl⟩

/-- Claim C5, amended: the round trip holds for every index below the full
mixed-radix capacity whose decoded vector satisfies the complete
sentinel-iff-unobserved invariant (sentinel at every unobserved position as
well as none at observed ones): re-encoding with `state_extract` under the
catalog counts returns the original index. -/
theorem claim_C5 (fv : List (List (Option ℚ))) (obs : List ℕ) (idx : ℕ)
    (hgood : ∀ vals ∈ fv, vals ≠ [] ∧ vals.Nodup)
    (hidx : idx < (fv.map List.length).prod)
    (hcheck : extractCheck (state_create idx fv) obs = true) :
    state_extract fv (fv.map List.length) (state_create idx fv) obs = .ok idx := by
  unfold state_extract
  rw [if_pos hcheck, extractLoop_state_create fv idx 0 hgood]
  rw [Nat.mod_eq_of_lt hidx]
  simp

/-- Witness for C5 at catalog `[[None, 5]]`, action `[1]`, index `1`. -/
theorem claim_C5_witness :
    extractCheck (state_create 1 [[none, some (5 : ℚ)]]) [1] = true ∧
    state_extract [[none, some (5 : ℚ)]]
      (([[none, some (5 : ℚ)]] : List (List (Option ℚ))).map List.length)
      (state_create 1 [[none, some (5 : ℚ)]]) [1] = .ok 1 :=
  ⟨by decide, claim_C5 [[none, some 5]] [1] 1 (by decide) (by decide) (by decide)⟩

/-!  Concrete evaluation of the oracle pipeline on the dataset
`contexts = [[5], [7]]`, `rewards = [[1, 0], [0, 1]]`, `cost = [0]`, `β = 1`,
`M = 1`, used by the claims about `general`, `choose_features_to_observe`
and `choose_arm`.  Kernel reduction stops at rational arithmetic, so these
facts are pushed through `norm_num` stage by stage. -/

lemma mask_one : maskedContexts [[5], [7]] [1] = [[5], [7]] := by
  norm_num [maskedContexts]

lemma mask_zero : maskedContexts [[5], [7]] [0] = [[0], [0]] := by
  norm_num [maskedContexts]

lemma uniqueMasked_one : uniqueMasked [[5], [7]] [1] = [[5], [7]] := by
  rw [uniqueMasked, mask_one]
  norm_num [npUniqueRows, List.insertionSort, List.orderedInsert, lexLe,
    List.dedup_cons_of_not_mem]

lemma uniqueMasked_zero : uniqueMasked [[5], [7]] [0] = [[0]] := by
  rw [uniqueMasked, mask_zero]
  norm_num [npUniqueRows, List.insertionSort, List.orderedInsert, lexLe,
    List.dedup_cons_of_mem]

lemma group_one_0 : groupTrials [[5], [7]] [1] 0 = [0] := by
  rw [groupTrials, mask_one, uniqueMasked_one]
  decide

lemma group_one_1 : groupTrials [[5], [7]] [1] 1 = [1] := by
  rw [groupTrials, mask_one, uniqueMasked_one]
  decide

lemma group_zero_0 : groupTrials [[5], [7]] [0] 0 = [0, 1] := by
  rw [groupTrials, mask_zero, uniqueMasked_zero]
  decide

lemma prob_one_0 : general_true_prob [[5], [7]] [[1, 0], [0, 1]] [1] 0 = 1 / 2 := by
  rw [general_true_prob, group_one_0]
  norm_num

lemma prob_one_1 : general_true_prob [[5], [7]] [[1, 0], [0, 1]] [1] 1 = 1 / 2 := by
  rw [general_true_prob, group_one_1]
  norm_num

lemma prob_zero_0 : general_true_prob [[5], [7]] [[1, 0], [0, 1]] [0] 0 = 1 := by
  rw [general_true_prob, group_zero_0]
  norm_num

lemma avg_one_0_0 : general_true_average [[5], [7]] [[1, 0], [0, 1]] [1] 0 0 = 1 := by
  rw [general_true_average, general_sum_rewards, general_visits, group_one_0]
  norm_num

lemma avg_one_0_1 : general_true_average [[5], [7]] [[1, 0], [0, 1]] [1] 0 1 = 0 := by
  rw [general_true_average, general_sum_rewards, general_visits, group_one_0]
  norm_num

lemma avg_one_1_0 : general_true_average [[5], [7]] [[1, 0], [0, 1]] [1] 1 0 = 0 := by
  rw [general_true_average, general_sum_rewards, general_visits, group_one_1]
  norm_num

lemma avg_one_1_1 : general_true_average [[5], [7]] [[1, 0], [0, 1]] [1] 1 1 = 1 := by
  rw [general_true_average, general_sum_rewards, general_visits, group_one_1]
  norm_num

lemma avg_zero_0_0 : general_true_average [[5], [7]] [[1, 0], [0, 1]] [0] 0 0 = 1 / 2 := by
  rw [general_true_average, general_sum_rewards, general_visits, group_zero_0]
  norm_num

lemma avg_zero_0_1 : general_true_average [[5], [7]] [[1, 0], [0, 1]] [0] 0 1 = 1 / 2 := by
  rw [general_true_average, general_sum_rewards, general_visits, group_zero_0]
  norm_num

lemma nact_two : numberOfActions [[1, 0], [0, 1]] = 2 := rfl

lemma rstar_one_0 : r_star [[5], [7]] [[1, 0], [0, 1]] [1] 0 = 1 := by
  rw [r_star, uniqueMasked_one, nact_two]
  norm_num [List.range_succ, avg_one_0_0, avg_one_0_1, npMax, argmaxPair]

lemma rstar_one_1 : r_star [[5], [7]] [[1, 0], [0, 1]] [1] 1 = 1 := by
  rw [r_star, uniqueMasked_one, nact_two]
  norm_num [List.range_succ, avg_one_1_0, avg_one_1_1, npMax, argmaxPair]

lemma rstar_zero_0 : r_star [[5], [7]] [[1, 0], [0, 1]] [0] 0 = 1 / 2 := by
  rw [r_star, uniqueMasked_zero, nact_two]
  norm_num [List.range_succ, avg_zero_0_0, avg_zero_0_1, npMax, argmaxPair]

lemma astar_one_0 : action_star [[5], [7]] [[1, 0], [0, 1]] [1] 0 = 0 := by
  rw [action_star, uniqueMasked_one, nact_two]
  norm_num [List.range_succ, avg_one_0_0, avg_one_0_1, npArgmax, argmaxPair]

lemma astar_one_1 : action_star [[5], [7]] [[1, 0], [0, 1]] [1] 1 = 1 := by
  rw [action_star, uniqueMasked_one, nact_two]
  norm_num [List.range_succ, avg_one_1_0, avg_one_1_1, npArgmax, argmaxPair]

lemma value_one : value_o [[5], [7]] [[1, 0], [0, 1]] [0] 1 [1] = 1 := by
  rw [value_o, uniqueMasked_one]
  norm_num [List.range_succ, prob_one_0, prob_one_1, rstar_one_0, rstar_one_1]

lemma value_zero : value_o [[5], [7]] [[1, 0], [0, 1]] [0] 1 [0] = 1 / 2 := by
  rw [value_o, uniqueMasked_zero]
  norm_num [List.range_succ, prob_zero_0, rstar_zero_0]

lemma perm_construct_one : perm_construct 1 1 = [[0], [1]] := by decide

lemma sel_concrete : selectedObservationAction [[5], [7]] [[1, 0], [0, 1]] [0] 1 1 = [1] := by
  rw [selectedObservationAction, indexOfObservationActionStar]
  have hdim : contextDim [[5], [7]] = 1 := rfl
  rw [hdim, perm_construct_one]
  norm_num [value_zero, value_one, npArgmax, argmaxPair]
  rfl

lemma fv_concrete : save_feature_values [[5], [7]] = [[none, some 5, some 7]] := by decide

lemma counts_concrete : feature_counts [[5], [7]] = [3] := by decide

lemma s_o_max_concrete : s_o_maxOf [[5], [7]] 1 = 3 := by decide

lemma choose_arm_concrete :
    choose_arm [[5], [7]] [[1, 0], [0, 1]] [0] 1 1 0 [some 5] [0, 1] = .ok 1 := by
  simp only [choose_arm]
  rw [sel_concrete, fv_concrete, counts_concrete,
    show state_extract [[none, some 5, some 7]] [3] [some 5] [1] = .ok 1 from rfl,
    s_o_max_concrete]
  norm_num [astar_one_1, List.findIdx?_cons]

/-!  Theorems for claim C4 (the batch tables of `general`). -/

lemma filter_range_length {α : Type} (l : List α) (p : α → Bool) (d : α) :
    ((List.range l.length).filter (fun t => p (l.getD t d))).length = l.countP p := by
  induction l with
  | nil => simp
  | cons x xs ih =>
    have hcomp : ((fun t => p ((x :: xs).getD t d)) ∘ Nat.succ) =
        (fun t => p (xs.getD t d)) := by
      funext t
      simp [Function.comp]
    rw [List.length_cons, List.range_succ_eq_map, List.filter_cons, List.filter_map, hcomp,
      List.getD_cons_zero, List.countP_cons]
    by_cases hx : p x = true
    · rw [if_pos hx, if_pos hx]
      simp only [List.length_cons, List.length_map, ih]
    · rw [if_neg hx, if_neg hx]
      simp only [List.length_map, ih]
      omega

lemma filter_range_map {β γ : Type} (r : List ℚ) (g : β → γ) (d : β) :
    ∀ (masked : List (List ℚ)) (rewards : List β), masked.length = rewards.length →
      ((List.range masked.length).filter (fun t => masked.getD t [] == r)).map
        (fun t => g (rewards.getD t d)) =
      (((masked.zip rewards).filter (fun q => q.1 == r)).map (fun q => g q.2)) := by
  intro masked
  induction masked with
  | nil => intro rewards _; simp
  | cons m ms ih =>
    intro rewards hlen
    cases rewards with
    | nil => simp at hlen
    | cons w ws =>
      have hlen' : ms.length = ws.length := by simpa using hlen
      have hcomp : ((fun t => (m :: ms).getD t [] == r) ∘ Nat.succ) =
          (fun t => ms.getD t [] == r) := by
        funext t
        simp [Function.comp]
      have hcomp2 : ((fun t => g ((w :: ws).getD t d)) ∘ Nat.succ) =
          (fun t => g (ws.getD t d)) := by
        funext t
        simp [Function.comp]
      rw [List.length_cons, List.range_succ_eq_map, List.filter_cons, List.filter_map, hcomp,
        List.getD_cons_zero, List.zip_cons_cons, List.filter_cons]
      by_cases hm : (m == r) = true
      · rw [if_pos hm, if_pos hm]
        simp only [List.map_cons, List.map_map]
        rw [hcomp2, ih ws hlen']
        rfl
      · rw [if_neg hm, if_neg hm]
        simp only [List.map_map]
        rw [hcomp2, ih ws hlen']

lemma foldl_nanAdd_none : ∀ l : List (Option ℚ), List.foldl nanAdd none l = none := by
  intro l
  induction l with
  | nil => rfl
  | cons x l ih =>
    have hx : nanAdd none x = none := by cases x <;> rfl
    rw [List.foldl_cons, hx, ih]

lemma npSumNaN_eq_none {l : List (Option ℚ)} (h : none ∈ l) : npSumNaN l = none := by
  unfold npSumNaN
  generalize some (0 : ℚ) = acc
  induction l generalizing acc with
  | nil => simp at h
  | cons x l ih =>
    rw [List.foldl_cons]
    rcases List.mem_cons.mp h with hx | hx
    · rw [← hx]
      have hacc : nanAdd acc none = none := by cases acc <;> rfl
      rw [hacc, foldl_nanAdd_none]
    · exact ih hx _

/-- Counterexample for C4 as stated: under observation action `[0]` the two
trials of `contexts = [[5], [7]]` form one group (masked row `[0]`); with
the reward column `[1, NaN]` the code's `np.sum` is poisoned by the
unrecorded entry and `general` assigns `NaN`, while the mean over the
recorded subset of the group is `1`. -/
theorem claim_C4_counterexample :
    (uniqueMasked [[5], [7]] [0]).getD 0 [] = [0] ∧
    general_true_average_nan [[5], [7]] [[some 1], [none]] [0] 0 0 = none ∧
    spec_recorded_mean [[5], [7]] [[some 1], [none]] [0] [0] 0 = 1 ∧
    general_true_average_nan [[5], [7]] [[some 1], [none]] [0] 0 0 ≠
      some (spec_recorded_mean [[5], [7]] [[some 1], [none]] [0] [0] 0) := by
  have h1 : (uniqueMasked [[5], [7]] [0]).getD 0 [] = [0] := by
    rw [uniqueMasked_zero]
    decide
  have h2 : general_true_average_nan [[5], [7]] [[some 1], [none]] [0] 0 0 = none := by
    rw [general_true_average_nan, general_sum_rewards_nan, group_zero_0]
    rfl
  have h3 : spec_recorded_mean [[5], [7]] [[some 1], [none]] [0] [0] 0 = 1 := by
    simp only [spec_recorded_mean]
    rw [mask_zero]
    rw [show (List.range ([[5], [7]] : List (List ℚ)).length).filter
        (fun t => ([[0], [0]] : List (List ℚ)).getD t [] == [0]) = [0, 1] from by decide]
    rw [show ([0, 1] : List ℕ).map (fun t => (([[some (1 : ℚ)], [none]] :
        List (List (Option ℚ))).getD t []).getD 0 none) = [some 1, none] from by decide]
    rw [show ([some (1 : ℚ), none] : List (Option ℚ)).filterMap (fun x => x) = [1] from
      by decide]
    norm_num
  refine ⟨h1, h2, h3, ?_⟩
  rw [h2]
  simp

/-- Claim C4, amended: for every observation action and every realized
masked row, `general` assigns the row's group an occurrence probability of
group size over total trials, and, per arm, the NaN-propagating sum of the
rewards of ALL trials in the group divided by the full group size — so the
assigned value is the group mean when every reward of the group is recorded
for that arm, and `NaN` (not the recorded-subset mean) as soon as one entry
is unrecorded. -/
theorem claim_C4 (all_contexts : List (List ℚ)) (all_rewards : List (List (Option ℚ)))
    (one_perm : List ℕ) (r : List ℚ)
    (hr : r ∈ maskedContexts all_contexts one_perm)
    (hT : all_contexts.length = all_rewards.length)
    (k : ℕ) (_hk : k < (all_rewards.headD []).length) :
    ∃ j, j < (uniqueMasked all_contexts one_perm).length ∧
      (uniqueMasked all_contexts one_perm).getD j [] = r ∧
      general_true_prob_nan all_contexts all_rewards one_perm j =
        ((maskedContexts all_contexts one_perm).countP (fun row => row == r) : ℚ) /
          (all_rewards.length : ℚ) ∧
      general_true_average_nan all_contexts all_rewards one_perm j k =
        (npSumNaN ((((maskedContexts all_contexts one_perm).zip all_rewards).filter
            (fun q => q.1 == r)).map (fun q => q.2.getD k (some 0)))).map
          (fun s => s / ((maskedContexts all_contexts one_perm).countP
            (fun row => row == r) : ℚ)) ∧
      ((∃ t ∈ groupTrials all_contexts one_perm j,
          (all_rewards.getD t []).getD k (some 0) = none) →
        general_true_average_nan all_contexts all_rewards one_perm j k = none) := by
  have hru : r ∈ uniqueMasked all_contexts one_perm := mem_npUniqueRows.mpr hr
  rw [List.mem_iff_getElem] at hru
  obtain ⟨j, hj, hjr⟩ := hru
  have hjD : (uniqueMasked all_contexts one_perm).getD j [] = r := by
    rw [List.getD_eq_getElem _ _ hj, hjr]
  have hmlen : (maskedContexts all_contexts one_perm).length = all_contexts.length :=
    List.length_map _ _
  have hgroup : groupTrials all_contexts one_perm j =
      (List.range (maskedContexts all_contexts one_perm).length).filter
        (fun t => (maskedContexts all_contexts one_perm).getD t [] == r) := by
    unfold groupTrials
    rw [hjD, hmlen]
  have hcount : (groupTrials all_contexts one_perm j).length =
      (maskedContexts all_contexts one_perm).countP (fun row => row == r) := by
    rw [hgroup]
    exact filter_range_length (maskedContexts all_contexts one_perm)
      (fun row => row == r) []
  refine ⟨j, hj, hjD, ?_, ?_, ?_⟩
  · unfold general_true_prob_nan
    rw [hcount]
  · unfold general_true_average_nan general_sum_rewards_nan general_visits
    rw [hcount, hgroup,
      filter_range_map r (fun w => w.getD k (some 0)) ([] : List (Option ℚ)) _ _
        (by rw [hmlen, hT])]
  · rintro ⟨t, ht, htn⟩
    have hmem : (none : Option ℚ) ∈ (groupTrials all_contexts one_perm j).map
        (fun t => (all_rewards.getD t []).getD k (some 0)) := by
      rw [List.mem_map]
      exact ⟨t, ht, htn⟩
    unfold general_true_average_nan general_sum_rewards_nan
    rw [npSumNaN_eq_none hmem]
    rfl

/-- Witness for the amended C4 at contexts `[[5], [7]]`, fully-recorded
rewards `[[1, 0], [0, 1]]`, action `[1]`, masked row `[5]`, arm `0`. -/
theorem claim_C4_witness :
    ([5] : List ℚ) ∈ maskedContexts [[5], [7]] [1] ∧
    ∃ j, j < (uniqueMasked [[5], [7]] [1]).length ∧
      (uniqueMasked [[5], [7]] [1]).getD j [] = [5] ∧
      general_true_prob_nan [[5], [7]] [[some 1, some 0], [some 0, some 1]] [1] j =
        ((maskedContexts [[5], [7]] [1]).countP (fun row => row == [5]) : ℚ) /
          (([[some 1, some 0], [some 0, some 1]] : List (List (Option ℚ))).length : ℚ) ∧
      general_true_average_nan [[5], [7]] [[some 1, some 0], [some 0, some 1]] [1] j 0 =
        (npSumNaN ((((maskedContexts [[5], [7]] [1]).zip
            ([[some 1, some 0], [some 0, some 1]] : List (List (Option ℚ)))).filter
            (fun q => q.1 == [5])).map (fun q => q.2.getD 0 (some 0)))).map
          (fun s => s / ((maskedContexts [[5], [7]] [1]).countP
            (fun row => row == [5]) : ℚ)) ∧
      ((∃ t ∈ groupTrials [[5], [7]] [1] j,
          (([[some 1, some 0], [some 0, some 1]] :
            List (List (Option ℚ))).getD t []).getD 0 (some 0) = none) →
        general_true_average_nan [[5], [7]] [[some 1, some 0], [some 0, some 1]] [1] j 0 =
          none) :=
  ⟨by rw [mask_one]; decide,
    claim_C4 [[5], [7]] [[some 1, some 0], [some 0, some 1]] [1] [5]
      (by rw [mask_one]; decide) rfl 0 (by decide)⟩

/-!  Theorems for claim C10 (`choose_features_to_observe`). -/

lemma mem_choose_features (action : List ℕ) (t : ℕ) (fi : List ℕ) (cv : List ℚ) (x : ℕ) :
    x ∈ choose_features_to_observe action t fi cv ↔
      ∃ hx : x < action.length, action.get ⟨x, hx⟩ ≠ 0 := by
  unfold choose_features_to_observe
  rw [List.mem_map]
  constructor
  · rintro ⟨p, hp, rfl⟩
    rw [List.mem_filter] at hp
    obtain ⟨hpe, hpv⟩ := hp
    rw [List.mem_enum_iff_getElem?] at hpe
    obtain ⟨hlt, hget⟩ := List.getElem?_eq_some_iff.mp hpe
    refine ⟨hlt, ?_⟩
    rw [List.get_eq_getElem, hget]
    simpa using hpv
  · rintro ⟨hx, hv⟩
    refine ⟨(x, action.get ⟨x, hx⟩), ?_, rfl⟩
    rw [List.mem_filter]
    refine ⟨?_, by simpa using hv⟩
    rw [List.mem_enum_iff_getElem?]
    exact List.getElem?_eq_some_iff.mpr ⟨hx, rfl⟩

/-- Counterexample for C10 as stated: on the dataset
`contexts = [[5], [7]]`, `rewards = [[1, 0], [0, 1]]`, `cost = [0]`, `β = 1`,
`M = 1`, the selected observation action is `[1]`, and with an empty
`availableFeatureIndices` list the method still returns `[0]`, which is not
a subset of the offered indices. -/
theorem claim_C10_counterexample :
    selectedObservationAction [[5], [7]] [[1, 0], [0, 1]] [0] 1 1 = [1] ∧
    choose_features_to_observe
      (selectedObservationAction [[5], [7]] [[1, 0], [0, 1]] [0] 1 1) 0 [] [0] = [0] ∧
    ¬(∀ y ∈ choose_features_to_observe
        (selectedObservationAction [[5], [7]] [[1, 0], [0, 1]] [0] 1 1) 0 [] [0],
      y ∈ ([] : List ℕ)) := by
  have hcf : choose_features_to_observe
      (selectedObservationAction [[5], [7]] [[1, 0], [0, 1]] [0] 1 1) 0 [] [0] = [0] := by
    rw [sel_concrete]
    decide
  refine ⟨sel_concrete, hcf, ?_⟩
  intro h
  have h0 := h 0
  rw [hcf] at h0
  simpa using h0 (by simp)

/-- Claim C10, amended: `choose_features_to_observe` returns exactly the
indices with a nonzero bit in the fixed selected observation action,
independently of `availableFeatureIndices`; the result is a subset of
`availableFeatureIndices` exactly when those observed indices are all
offered. -/
theorem claim_C10 (all_contexts all_rewards : List (List ℚ)) (cost_vector : List ℚ)
    (beta : ℚ) (max_num_observations t : ℕ) (feature_indices : List ℕ)
    (hoffer : ∀ x (hx : x < (selectedObservationAction all_contexts all_rewards
        cost_vector beta max_num_observations).length),
      (selectedObservationAction all_contexts all_rewards cost_vector beta
        max_num_observations).get ⟨x, hx⟩ ≠ 0 → x ∈ feature_indices) :
    (∀ x, x ∈ choose_features_to_observe (selectedObservationAction all_contexts
        all_rewards cost_vector beta max_num_observations) t feature_indices cost_vector ↔
      ∃ hx : x < (selectedObservationAction all_contexts all_rewards cost_vector beta
        max_num_observations).length,
        (selectedObservationAction all_contexts all_rewards cost_vector beta
          max_num_observations).get ⟨x, hx⟩ ≠ 0) ∧
    ∀ y ∈ choose_features_to_observe (selectedObservationAction all_contexts all_rewards
        cost_vector beta max_num_observations) t feature_indices cost_vector,
      y ∈ feature_indices := by
  refine ⟨fun x => mem_choose_features _ t feature_indices cost_vector x, ?_⟩
  intro y hy
  obtain ⟨hx, hv⟩ := (mem_choose_features _ t feature_indices cost_vector y).mp hy
  exact hoffer y hx hv

/-- Witness for C10 on the concrete dataset with offered indices `[0, 3]`. -/
theorem claim_C10_witness :
    (∀ x (hx : x < (selectedObservationAction [[5], [7]] [[1, 0], [0, 1]] [0] 1
        1).length),
      (selectedObservationAction [[5], [7]] [[1, 0], [0, 1]] [0] 1 1).get ⟨x, hx⟩ ≠ 0 →
        x ∈ ([0, 3] : List ℕ)) ∧
    ((∀ x, x ∈ choose_features_to_observe
        (selectedObservationAction [[5], [7]] [[1, 0], [0, 1]] [0] 1 1) 0 [0, 3] [0] ↔
      ∃ hx : x < (selectedObservationAction [[5], [7]] [[1, 0], [0, 1]] [0] 1 1).length,
        (selectedObservationAction [[5], [7]] [[1, 0], [0, 1]] [0] 1 1).get ⟨x, hx⟩ ≠ 0) ∧
    ∀ y ∈ choose_features_to_observe
        (selectedObservationAction [[5], [7]] [[1, 0], [0, 1]] [0] 1 1) 0 [0, 3] [0],
      y ∈ ([0, 3] : List ℕ)) := by
  have hoffer : ∀ x (hx : x < (selectedObservationAction [[5], [7]] [[1, 0], [0, 1]]
      [0] 1 1).length),
      (selectedObservationAction [[5], [7]] [[1, 0], [0, 1]] [0] 1 1).get ⟨x, hx⟩ ≠ 0 →
        x ∈ ([0, 3] : List ℕ) := by
    intro x hx hval
    have hx' := hx
    rw [sel_concrete] at hx'
    simp only [List.length_cons, List.length_nil] at hx'
    have hx0 : x = 0 := by omega
    subst hx0
    decide
  exact ⟨hoffer, claim_C10 [[5], [7]] [[1, 0], [0, 1]] [0] 1 1 0 [0, 3] hoffer⟩

/-!  Theorems for claim C3 (`choose_arm` and the mismatched state indexing). -/

/-- Claim C3 fails on the code: on the dataset `contexts = [[5], [7]]`,
`rewards = [[1, 0], [0, 1]]`, `cost = [0]`, `β = 1`, `M = 1`, the selected
action is `[1]` and the trial with observed context `5` realizes unique
masked row `0` (the row `[5]`), whose best arm is `0`, sitting at position
`0` of the pool `[0, 1]` — yet `choose_arm` returns pool position `1`,
because it reads the tables (filled in `np.unique` row order) at the
mixed-radix `state_extract` index `1`, which belongs to the other state
`[7]`. -/
theorem claim_C3 :
    selectedObservationAction [[5], [7]] [[1, 0], [0, 1]] [0] 1 1 = [1] ∧
    maskedContexts [[5], [7]] [1] = [[5], [7]] ∧
    (uniqueMasked [[5], [7]] [1]).getD 0 [] = [5] ∧
    action_star [[5], [7]] [[1, 0], [0, 1]] [1] 0 = 0 ∧
    ([0, 1] : List ℕ).findIdx? (fun a => a == 0) = some 0 ∧
    choose_arm [[5], [7]] [[1, 0], [0, 1]] [0] 1 1 0 [some 5] [0, 1] = .ok 1 := by
  refine ⟨sel_concrete, mask_one, ?_, astar_one_0, by decide, choose_arm_concrete⟩
  rw [uniqueMasked_one]
  decide

/-!  Theorems for claim C1 (the oracle constructor). -/

lemma perm_construct_ne_nil (D M : ℕ) : perm_construct D M ≠ [] := by
  by_cases hDM : D = M
  · rw [perm_construct, if_pos hDM]
    intro hnil
    have hlen := full_perm_construct_length D
    rw [hnil] at hlen
    have h2 : 0 < 2 ^ D := pow_pos (by norm_num) D
    simp at hlen
    omega
  · rw [perm_construct, if_neg hDM]
    have hmem : List.replicate D 0 ∈
        (List.range (M + 1)).flatMap (fun i =>
          npUniqueRows ((List.replicate i 1 ++ List.replicate (D - i) 0).permutations)) := by
      rw [List.mem_flatMap]
      refine ⟨0, by simp, ?_⟩
      rw [mem_npUniqueRows, List.mem_permutations]
      simp
    exact List.ne_nil_of_mem hmem

/-- Claim C1 fails on the code: for every construction input, the oracle
constructor raises `ValueError` at `self.s_o[i] = utilities.state_construct(...)`
(assigning the 2-tuple returned by `state_construct` into a scalar cell of
the float array `s_o`), so it never reaches the value computation and the
argmax selection of the observation action. -/
theorem claim_C1 (all_contexts all_rewards : List (List ℚ)) (cost_vector : List ℚ)
    (number_of_actions max_num_observations : ℕ) (beta : ℚ) :
    simOOS_Oracle_init all_contexts all_rewards cost_vector number_of_actions
      max_num_observations beta = .error InitErr.valueError := by
  have hne : perm_construct (contextDim all_contexts) max_num_observations ≠ [] :=
    perm_construct_ne_nil _ _
  obtain ⟨L, hL⟩ : ∃ L,
      (perm_construct (contextDim all_contexts) max_num_observations).length = L + 1 := by
    have hpos := List.length_pos.mpr hne
    exact ⟨(perm_construct (contextDim all_contexts) max_num_observations).length - 1,
      by omega⟩
  simp only [simOOS_Oracle_init]
  rw [hL, List.range_succ_eq_map]
  rfl

end NCCBandits
